import Mathlib

/-
Verification of the `gate` package (src/gate.go): a counting semaphore built
on a buffered Go channel.  A `Gate` owns `c chan struct` with capacity `max`;
`Lock` is a channel send, `Unlock`/`Done` are channel receives, `Add` loops
sends or receives, and `Wait` (under the mutex `m`) sends `cap(g.c)` tokens
and then receives them back.

Sequential shallow embedding: the channel is represented by its capacity
`cap(g.c)` and its current length `len(g.c)` (the held count).  A blocking
channel operation that is not enabled in the current state is embedded as
`none` (the call would suspend and, with no other thread to unblock it, never
return).  A runtime panic is a distinct outcome.  The mutex `m` only
serializes concurrent `Wait` calls against each other and has no observable
effect in a sequential trace, so it is not part of the state.

Go `int` is 64-bit here; the one place where fixed-width arithmetic matters
is the negation `-n` inside `Add`, which wraps on the minimum `int64`.
-/

namespace GateSpec

/-- State of a `Gate` (gate.go lines 14-17): `capacity` embeds `cap(g.c)`
and `held` embeds `len(g.c)`, the number of buffered tokens.  A Go channel
never holds more than `cap` elements, so reachable states satisfy
`held ≤ capacity`; the plain record does not bake that in, theorems take it
as a hypothesis where needed. -/
structure Gate where
  capacity : Nat
  held : Nat
  deriving DecidableEq, Repr

/-- `New` (gate.go line 39): `make(chan struct, max)` succeeds for any
nonnegative buffer size — in particular `New(0)` returns a gate over an
unbuffered channel — and the Go runtime panics for a negative size,
embedded as `none`. -/
def New (max : Int) : Option Gate :=
  if 0 ≤ max then some { capacity := max.toNat, held := 0 } else none

/-- `Gate.Lock` (gate.go line 44): the send `g.c <- struct` buffers a token
when the channel has room and otherwise blocks. -/
def Gate.Lock (g : Gate) : Option Gate :=
  if g.held < g.capacity then some { capacity := g.capacity, held := g.held + 1 }
  else none

/-- `Gate.Unlock` (gate.go line 47): the receive `<-g.c` takes a buffered
token when one exists and otherwise blocks. -/
def Gate.Unlock (g : Gate) : Option Gate :=
  if 0 < g.held then some { capacity := g.capacity, held := g.held - 1 }
  else none

/-- `Gate.Done` (gate.go line 70): its body `<-g.c` is the same receive as
`Unlock`. -/
def Gate.Done (g : Gate) : Option Gate :=
  if 0 < g.held then some { capacity := g.capacity, held := g.held - 1 }
  else none

/-- The minimum value of Go's 64-bit `int`. -/
def int64Min : Int := -(2 ^ 63)

/-- Reduce an integer to the 64-bit two's-complement value it denotes. -/
def wrap64 (x : Int) : Int := (x + 2 ^ 63) % 2 ^ 64 - 2 ^ 63

/-- Go's 64-bit negation `-n`: ordinary negation except that the minimum
`int64` wraps to itself. -/
def negInt64 (n : Int) : Int := wrap64 (-n)

/-- Run a (possibly blocking) channel operation `n` times in sequence,
as the `for` loops in `Add` and `Wait` do. -/
def repeatOp (f : Gate → Option Gate) : Nat → Gate → Option Gate
  | 0, g => some g
  | n + 1, g => (f g).bind (repeatOp f n)

/-- Outcome of a `Gate.Add` call: normal return, suspension on a channel
operation, or the range panic. -/
inductive AddResult where
  | ok (g : Gate)
  | blocked
  | panicked
  deriving DecidableEq, Repr

/-- View a blocking-operation outcome as an `AddResult`. -/
def ofOption : Option Gate → AddResult
  | some g => AddResult.ok g
  | none => AddResult.blocked

/-- `Gate.Add` (gate.go lines 54-67): panic when `n > cap(g.c) || -n > cap(g.c)`
(both negations computed in 64-bit arithmetic), then send `n` tokens when
`n > 0`, else receive `-n` tokens (a loop bound that is nonpositive runs
zero iterations). -/
def Gate.Add (g : Gate) (n : Int) : AddResult :=
  if n > (g.capacity : Int) ∨ negInt64 n > (g.capacity : Int) then AddResult.panicked
  else if n > 0 then ofOption (repeatOp Gate.Lock n.toNat g)
  else ofOption (repeatOp Gate.Unlock (negInt64 n).toNat g)

/-- `Gate.Wait` (gate.go lines 74-83): holding the mutex, send `cap(g.c)`
tokens, then receive `cap(g.c)` tokens. -/
def Gate.Wait (g : Gate) : Option Gate :=
  (repeatOp Gate.Lock g.capacity g).bind (repeatOp Gate.Unlock g.capacity)

/-- One call against a `Gate`, for reasoning about whole traces. -/
inductive Op where
  | lock
  | unlock
  | done
  | add (n : Int)
  | wait
  deriving DecidableEq, Repr

/-- Execute one call; `none` when the call blocks forever or panics (in
either case no successor state is observed). -/
def Gate.step (g : Gate) : Op → Option Gate
  | Op.lock => g.Lock
  | Op.unlock => g.Unlock
  | Op.done => g.Done
  | Op.add n =>
      match g.Add n with
      | AddResult.ok g2 => some g2
      | _ => none
  | Op.wait => g.Wait

/-- Execute a sequence of calls. -/
def Gate.run (g : Gate) : List Op → Option Gate
  | [] => some g
  | o :: os => (g.step o).bind (fun g2 => Gate.run g2 os)

/-! Helper lemmas shared by the claim theorems. -/

/-- `wrap64` is the identity on values already in the 64-bit signed range. -/
theorem wrap64_eq_self (x : Int) (h1 : -(2 ^ 63) ≤ x) (h2 : x < 2 ^ 63) :
    wrap64 x = x := by
  unfold wrap64
  have h0 : 0 ≤ x + 2 ^ 63 := by omega
  have hlt : x + 2 ^ 63 < 2 ^ 64 := by omega
  rw [Int.emod_eq_of_lt h0 hlt]
  omega

/-- For an in-range operand other than the minimum `int64`, the 64-bit
negation agrees with mathematical negation. -/
theorem negInt64_eq_neg (n : Int) (h1 : -(2 ^ 63) < n) (h2 : n < 2 ^ 63) :
    negInt64 n = -n := by
  unfold negInt64
  exact wrap64_eq_self (-n) (by omega) (by omega)

/-- Iterated `Lock` from a channel-valid state: succeeds exactly when the
buffer has room for all `k` tokens, adding `k` to the held count. -/
theorem repeatOp_Lock_eq (k : Nat) : ∀ c h : Nat, h ≤ c →
    repeatOp Gate.Lock k ⟨c, h⟩ = if h + k ≤ c then some ⟨c, h + k⟩ else none := by
  induction k with
  | zero =>
    intro c h hinv
    simp [repeatOp, hinv]
  | succ m ih =>
    intro c h hinv
    by_cases hlt : h < c
    · have hstep : Gate.Lock ⟨c, h⟩ = some ⟨c, h + 1⟩ := by simp [Gate.Lock, hlt]
      rw [repeatOp, hstep]
      show repeatOp Gate.Lock m ⟨c, h + 1⟩ = _
      rw [ih c (h + 1) hlt]
      by_cases hfit : h + (m + 1) ≤ c
      · rw [if_pos (by omega), if_pos hfit]
        simp only [Option.some.injEq, Gate.mk.injEq, true_and]
        omega
      · rw [if_neg (by omega), if_neg hfit]
    · have hstep : Gate.Lock ⟨c, h⟩ = none := by simp [Gate.Lock, hlt]
      rw [repeatOp, hstep]
      show (none : Option Gate) = _
      rw [if_neg (by omega)]

/-- Iterated `Unlock`: succeeds exactly when `k` tokens are buffered to
take, removing `k` from the held count. -/
theorem repeatOp_Unlock_eq (k : Nat) : ∀ c h : Nat,
    repeatOp Gate.Unlock k ⟨c, h⟩ = if k ≤ h then some ⟨c, h - k⟩ else none := by
  induction k with
  | zero =>
    intro c h
    simp [repeatOp]
  | succ m ih =>
    intro c h
    by_cases hpos : 0 < h
    · have hstep : Gate.Unlock ⟨c, h⟩ = some ⟨c, h - 1⟩ := by simp [Gate.Unlock, hpos]
      rw [repeatOp, hstep]
      show repeatOp Gate.Unlock m ⟨c, h - 1⟩ = _
      rw [ih c (h - 1)]
      by_cases hfit : m + 1 ≤ h
      · rw [if_pos (by omega), if_pos hfit]
        simp only [Option.some.injEq, Gate.mk.injEq, true_and]
        omega
      · rw [if_neg (by omega), if_neg hfit]
    · have hstep : Gate.Unlock ⟨c, h⟩ = none := by simp [Gate.Unlock, hpos]
      rw [repeatOp, hstep]
      show (none : Option Gate) = _
      rw [if_neg (by omega)]

/-- A successful `Lock` keeps the capacity and lands within it. -/
theorem Lock_inv (g g2 : Gate) (h : g.Lock = some g2) :
    g2.capacity = g.capacity ∧ g2.held ≤ g2.capacity := by
  unfold Gate.Lock at h
  by_cases hlt : g.held < g.capacity
  · rw [if_pos hlt] at h
    cases h
    exact ⟨rfl, hlt⟩
  · rw [if_neg hlt] at h
    cases h

/-- A successful `Unlock` keeps the capacity and, from a channel-valid
state, stays within it. -/
theorem Unlock_inv (g g2 : Gate) (hinv : g.held ≤ g.capacity)
    (h : g.Unlock = some g2) : g2.capacity = g.capacity ∧ g2.held ≤ g2.capacity := by
  unfold Gate.Unlock at h
  by_cases hpos : 0 < g.held
  · rw [if_pos hpos] at h
    cases h
    refine ⟨rfl, ?_⟩
    show g.held - 1 ≤ g.capacity
    omega
  · rw [if_neg hpos] at h
    cases h

/-- Iterating an operation that preserves capacity and the held bound
preserves them as well. -/
theorem repeatOp_inv (f : Gate → Option Gate)
    (hf : ∀ g g2, g.held ≤ g.capacity → f g = some g2 →
      g2.capacity = g.capacity ∧ g2.held ≤ g2.capacity) :
    ∀ k g g2, g.held ≤ g.capacity → repeatOp f k g = some g2 →
      g2.capacity = g.capacity ∧ g2.held ≤ g2.capacity := by
  intro k
  induction k with
  | zero =>
    intro g g2 hinv hr
    simp only [repeatOp, Option.some.injEq] at hr
    subst hr
    exact ⟨rfl, hinv⟩
  | succ m ih =>
    intro g g2 hinv hr
    rw [repeatOp] at hr
    cases hfg : f g with
    | none =>
      rw [hfg] at hr
      replace hr : (none : Option Gate) = some g2 := hr
      cases hr
    | some g1 =>
      rw [hfg] at hr
      replace hr : repeatOp f m g1 = some g2 := hr
      have h1 := hf g g1 hinv hfg
      have h2 := ih g1 g2 h1.2 hr
      exact ⟨h2.1.trans h1.1, h2.2⟩

/-- A normally-returning `Add` preserves capacity and the held bound. -/
theorem Add_inv (g : Gate) (n : Int) (g2 : Gate) (hinv : g.held ≤ g.capacity)
    (h : g.Add n = AddResult.ok g2) : g2.capacity = g.capacity ∧ g2.held ≤ g2.capacity := by
  unfold Gate.Add at h
  by_cases hpanic : n > (g.capacity : Int) ∨ negInt64 n > (g.capacity : Int)
  · rw [if_pos hpanic] at h
    cases h
  · rw [if_neg hpanic] at h
    by_cases hpos : n > 0
    · rw [if_pos hpos] at h
      cases hl : repeatOp Gate.Lock n.toNat g with
      | none =>
        rw [hl] at h
        cases h
      | some g1 =>
        rw [hl] at h
        replace h : AddResult.ok g1 = AddResult.ok g2 := h
        cases h
        exact repeatOp_inv Gate.Lock (fun a b _ => Lock_inv a b) n.toNat g g2 hinv hl
    · rw [if_neg hpos] at h
      cases hl : repeatOp Gate.Unlock (negInt64 n).toNat g with
      | none =>
        rw [hl] at h
        cases h
      | some g1 =>
        rw [hl] at h
        replace h : AddResult.ok g1 = AddResult.ok g2 := h
        cases h
        exact repeatOp_inv Gate.Unlock (fun a b hab => Unlock_inv a b hab)
          (negInt64 n).toNat g g2 hinv hl

/-- A returning `Wait` preserves capacity and the held bound. -/
theorem Wait_inv (g g2 : Gate) (hinv : g.held ≤ g.capacity)
    (h : g.Wait = some g2) : g2.capacity = g.capacity ∧ g2.held ≤ g2.capacity := by
  unfold Gate.Wait at h
  cases hl : repeatOp Gate.Lock g.capacity g with
  | none =>
    rw [hl] at h
    replace h : (none : Option Gate) = some g2 := h
    cases h
  | some g1 =>
    rw [hl] at h
    replace h : repeatOp Gate.Unlock g.capacity g1 = some g2 := h
    have h1 := repeatOp_inv Gate.Lock (fun a b _ => Lock_inv a b) g.capacity g g1 hinv hl
    have h2 := repeatOp_inv Gate.Unlock (fun a b hab => Unlock_inv a b hab)
      g.capacity g1 g2 h1.2 h
    exact ⟨h2.1.trans h1.1, h2.2⟩

/-- A single successful `step` preserves capacity and the held bound. -/
theorem step_inv (g : Gate) (o : Op) (g2 : Gate) (hinv : g.held ≤ g.capacity)
    (hs : g.step o = some g2) : g2.capacity = g.capacity ∧ g2.held ≤ g2.capacity := by
  cases o with
  | lock => exact Lock_inv g g2 hs
  | unlock => exact Unlock_inv g g2 hinv hs
  | done => exact Unlock_inv g g2 hinv hs
  | wait => exact Wait_inv g g2 hinv hs
  | add n =>
    replace hs : (match g.Add n with
      | AddResult.ok g1 => some g1
      | _ => none) = some g2 := hs
    cases hadd : g.Add n with
    | ok g1 =>
      rw [hadd] at hs
      replace hs : some g1 = some g2 := hs
      cases hs
      exact Add_inv g n g2 hinv hadd
    | blocked =>
      rw [hadd] at hs
      cases hs
    | panicked =>
      rw [hadd] at hs
      cases hs

/-- A successful run of any call sequence preserves capacity and the held
bound. -/
theorem run_inv (ops : List Op) : ∀ g g2 : Gate, g.held ≤ g.capacity →
    g.run ops = some g2 → g2.capacity = g.capacity ∧ g2.held ≤ g2.capacity := by
  induction ops with
  | nil =>
    intro g g2 hinv hr
    replace hr : some g = some g2 := hr
    cases hr
    exact ⟨rfl, hinv⟩
  | cons o os ih =>
    intro g g2 hinv hr
    rw [Gate.run] at hr
    cases hstep : g.step o with
    | none =>
      rw [hstep] at hr
      replace hr : (none : Option Gate) = some g2 := hr
      cases hr
    | some g1 =>
      rw [hstep] at hr
      replace hr : g1.run os = some g2 := hr
      have h1 := step_inv g o g1 hinv hstep
      have h2 := ih g1 g2 h1.2 hr
      exact ⟨h2.1.trans h1.1, h2.2⟩

/-! Claim theorems. -/

/-- C1: For every Gate constructed with capacity max > 0 and every sequence
of Lock, Unlock, Done, Add, and Wait calls whose blocking preconditions hold
(i.e. that runs to completion), the held count satisfies
0 ≤ held ≤ capacity at every point, and the capacity stays fixed at max.
Every intermediate point of a completed run is itself the final state of a
completed run of a prefix, so quantifying over all call sequences covers
every observable point. -/
theorem C1_capacity_invariant (max : Int) (g g2 : Gate) (ops : List Op)
    (hmax : 0 < max) (hnew : New max = some g) (hrun : g.run ops = some g2) :
    0 ≤ g2.held ∧ g2.held ≤ g2.capacity ∧ g2.capacity = max.toNat := by
  have hg : g = { capacity := max.toNat, held := 0 } := by
    unfold New at hnew
    rw [if_pos (le_of_lt hmax)] at hnew
    cases hnew
    rfl
  subst hg
  have h := run_inv ops { capacity := max.toNat, held := 0 } g2 (Nat.zero_le _) hrun
  exact ⟨Nat.zero_le _, h.2, h.1⟩

/-- Witness for C1 at max = 1 with the trace Lock, Unlock. -/
theorem C1_capacity_invariant_witness :
    0 ≤ (Gate.mk 1 0).held ∧ (Gate.mk 1 0).held ≤ (Gate.mk 1 0).capacity ∧
      (Gate.mk 1 0).capacity = (1 : Int).toNat :=
  C1_capacity_invariant 1 (Gate.mk 1 0) (Gate.mk 1 0) [Op.lock, Op.unlock]
    (by decide) (by decide) (by decide)

/-- C2 (code evaluated at the failing input): the claim and the doc comment
on `New` say construction fails for every non-positive capacity, but
`New(0)` succeeds: `make(chan struct, 0)` is a valid unbuffered channel, so
the code returns a Gate with capacity 0 instead of panicking.  (A negative
capacity such as -5 does make the runtime panic, and positive capacities
build the claimed state.) -/
theorem C2_new_zero_succeeds :
    New 0 = some (Gate.mk 0 0) ∧ New (-5) = none ∧ New 4 = some (Gate.mk 4 0) := by
  decide

/-- C3: when held < capacity, Lock buffers one token, incrementing held by
exactly one; when held = capacity the send has no room and blocks, leaving
no successor state. -/
theorem C3_lock_behavior (g : Gate) :
    (g.held < g.capacity → g.Lock = some (Gate.mk g.capacity (g.held + 1))) ∧
    (g.held = g.capacity → g.Lock = none) := by
  constructor
  · intro h
    simp [Gate.Lock, h]
  · intro h
    simp [Gate.Lock, h]

/-- Witness for C3: capacity-2 gate holding 1 increments to 2; a full gate
blocks. -/
theorem C3_lock_behavior_witness :
    (Gate.mk 2 1).Lock = some (Gate.mk 2 2) ∧ (Gate.mk 2 2).Lock = none :=
  ⟨(C3_lock_behavior (Gate.mk 2 1)).1 (by decide),
   (C3_lock_behavior (Gate.mk 2 2)).2 (by decide)⟩

/-- C4: Done and Unlock are the same operation (their bodies are the same
channel receive); when held > 0 a release decrements held by exactly one;
when held = 0 the receive blocks forever — no error, no negative held, no
state change. -/
theorem C4_release_behavior (g : Gate) :
    Gate.Done = Gate.Unlock ∧
    (0 < g.held → g.Unlock = some (Gate.mk g.capacity (g.held - 1))) ∧
    (g.held = 0 → g.Unlock = none) := by
  refine ⟨rfl, ?_, ?_⟩
  · intro h
    simp [Gate.Unlock, h]
  · intro h
    simp [Gate.Unlock, h]

/-- Witness for C4: capacity-3 gate holding 2 decrements to 1; an empty
gate blocks. -/
theorem C4_release_behavior_witness :
    (Gate.mk 3 2).Unlock = some (Gate.mk 3 1) ∧ (Gate.mk 3 0).Unlock = none :=
  ⟨(C4_release_behavior (Gate.mk 3 2)).2.1 (by decide),
   (C4_release_behavior (Gate.mk 3 0)).2.2 rfl⟩

/-- C5 (code evaluated at the failing input): the claim says every n with
|n| > capacity panics before any unit operation, but the range check
computes -n in 64-bit arithmetic, so for n equal to the minimum int64
(|n| = 2^63 > 4) both comparisons see a negative number and `Add` returns
silently as a no-op on a capacity-4 gate instead of panicking.  Ordinary
out-of-range arguments such as 5 and -5 do panic, and in-range ones do
not. -/
theorem C5_add_range_check_overflow :
    (Gate.mk 4 0).Add int64Min = AddResult.ok (Gate.mk 4 0) ∧
    (4 : Int) < -int64Min ∧
    (Gate.mk 4 0).Add 5 = AddResult.panicked ∧
    (Gate.mk 4 0).Add (-5) = AddResult.panicked ∧
    (Gate.mk 4 0).Add 4 ≠ AddResult.panicked ∧
    (Gate.mk 4 4).Add (-4) ≠ AddResult.panicked := by
  decide

/-- C6: for 0 < n ≤ capacity, Add n is exactly n sequential Lock calls; for
-capacity ≤ n < 0 it is exactly |n| sequential Unlock calls; Add 0 returns
leaving the state unchanged.  The capacity bound 2^63 reflects that
`cap(g.c)` is itself a 64-bit int. -/
theorem C6_batch_equivalence (g : Gate) (n : Int)
    (hcap : (g.capacity : Int) < 2 ^ 63) :
    (0 < n → n ≤ (g.capacity : Int) →
      g.Add n = ofOption (repeatOp Gate.Lock n.toNat g)) ∧
    (n < 0 → -n ≤ (g.capacity : Int) →
      g.Add n = ofOption (repeatOp Gate.Unlock (-n).toNat g)) ∧
    g.Add 0 = AddResult.ok g := by
  have hc0 : (0 : Int) ≤ (g.capacity : Int) := Int.natCast_nonneg _
  refine ⟨?_, ?_, ?_⟩
  · intro hpos hle
    have hneg : negInt64 n = -n := negInt64_eq_neg n (by omega) (by omega)
    unfold Gate.Add
    rw [if_neg (by rw [hneg]; omega), if_pos hpos]
  · intro hneg0 hle
    have hneg : negInt64 n = -n := negInt64_eq_neg n (by omega) (by omega)
    unfold Gate.Add
    rw [if_neg (by rw [hneg]; omega), if_neg (by omega), hneg]
  · have hneg : negInt64 0 = 0 := by
      have h := negInt64_eq_neg 0 (by omega) (by omega)
      simpa using h
    unfold Gate.Add
    rw [if_neg (by rw [hneg]; omega), if_neg (by omega), hneg]
    rfl

/-- Witness for C6 at capacity 2: Add 2 is two Locks, Add (-2) is two
Unlocks, Add 0 is a no-op. -/
theorem C6_batch_equivalence_witness :
    (Gate.mk 2 0).Add 2 = ofOption (repeatOp Gate.Lock (2 : Int).toNat (Gate.mk 2 0)) ∧
    (Gate.mk 2 2).Add (-2) =
      ofOption (repeatOp Gate.Unlock (-(-2 : Int)).toNat (Gate.mk 2 2)) ∧
    (Gate.mk 2 1).Add 0 = AddResult.ok (Gate.mk 2 1) :=
  ⟨(C6_batch_equivalence (Gate.mk 2 0) 2 (by decide)).1 (by decide) (by decide),
   (C6_batch_equivalence (Gate.mk 2 2) (-2) (by decide)).2.1 (by decide) (by decide),
   (C6_batch_equivalence (Gate.mk 2 1) 0 (by decide)).2.2⟩

/-- C7: Wait is capacity sequential Locks followed by capacity sequential
Unlocks (that is its definition); from a channel-valid state it returns
exactly when held = 0, and then it restores the state unchanged — the
sequential rendering of "whenever Wait returns, the Gate is back to
held = 0 with its capacity fully available". -/
theorem C7_wait_restores_idle (g : Gate) (hinv : g.held ≤ g.capacity) :
    g.Wait = if g.held = 0 then some g else none := by
  obtain ⟨c, h⟩ := g
  replace hinv : h ≤ c := hinv
  show (repeatOp Gate.Lock c ⟨c, h⟩).bind (repeatOp Gate.Unlock c) =
    if h = 0 then some ⟨c, h⟩ else none
  rw [repeatOp_Lock_eq c c h hinv]
  by_cases h0 : h = 0
  · subst h0
    rw [if_pos (by omega)]
    show repeatOp Gate.Unlock c ⟨c, 0 + c⟩ = _
    rw [repeatOp_Unlock_eq c c (0 + c)]
    rw [if_pos (by omega), if_pos rfl]
    simp only [Option.some.injEq, Gate.mk.injEq, true_and]
    omega
  · rw [if_neg (by omega), if_neg h0]
    rfl

/-- Witness for C7: an idle capacity-3 gate passes Wait unchanged. -/
theorem C7_wait_restores_idle_witness :
    (Gate.mk 3 0).Wait = if (Gate.mk 3 0).held = 0 then some (Gate.mk 3 0) else none :=
  C7_wait_restores_idle (Gate.mk 3 0) (by decide)

/-- C8: sequential rendering of the capacity-1 blocking scenario — while
one holder has the unit, a second Lock is not enabled (the send blocks);
after the holder Unlocks, Lock is enabled and completes. -/
theorem C8_capacity_one_blocking :
    (Gate.mk 1 1).Lock = none ∧
    (Gate.mk 1 1).Unlock = some (Gate.mk 1 0) ∧
    (Gate.mk 1 0).Lock = some (Gate.mk 1 1) := by
  decide

/-- C9: for n equal to the minimum int64, 64-bit negation gives back n
itself, a negative value, so on any gate of positive capacity both halves
of the range check `n > c || -n > c` are false, the positive branch is not
taken, and the receive loop runs zero iterations: Add returns silently as
a no-op. -/
theorem C9_add_int64min_is_noop (g : Gate) (hpos : 0 < g.capacity) :
    g.Add int64Min = AddResult.ok g := by
  have hc0 : (0 : Int) ≤ (g.capacity : Int) := Int.natCast_nonneg _
  have hneg : negInt64 int64Min = int64Min := by decide
  have hlt : int64Min < 0 := by decide
  unfold Gate.Add
  rw [if_neg (by rw [hneg]; omega), if_neg (by omega), hneg]
  have ht : int64Min.toNat = 0 := by decide
  rw [ht]
  rfl

/-- Witness for C9 on a capacity-1 gate. -/
theorem C9_add_int64min_is_noop_witness :
    0 < (Gate.mk 1 0).capacity ∧
      (Gate.mk 1 0).Add int64Min = AddResult.ok (Gate.mk 1 0) :=
  ⟨by decide, C9_add_int64min_is_noop (Gate.mk 1 0) (by decide)⟩

/-- C10: from a channel-valid state, Lock then Unlock (no interleaving)
restores exactly the original state when held < capacity, and Unlock then
Lock restores it when held > 0. -/
theorem C10_lock_unlock_roundtrip (g : Gate) (hinv : g.held ≤ g.capacity) :
    (g.held < g.capacity → g.Lock.bind Gate.Unlock = some g) ∧
    (0 < g.held → g.Unlock.bind Gate.Lock = some g) := by
  obtain ⟨c, h⟩ := g
  replace hinv : h ≤ c := hinv
  constructor
  · intro hlt
    replace hlt : h < c := hlt
    have h1 : Gate.Lock ⟨c, h⟩ = some ⟨c, h + 1⟩ := by simp [Gate.Lock, hlt]
    rw [h1]
    show Gate.Unlock ⟨c, h + 1⟩ = some ⟨c, h⟩
    simp [Gate.Unlock]
  · intro hpos
    replace hpos : 0 < h := hpos
    have h1 : Gate.Unlock ⟨c, h⟩ = some ⟨c, h - 1⟩ := by simp [Gate.Unlock, hpos]
    rw [h1]
    show Gate.Lock ⟨c, h - 1⟩ = some ⟨c, h⟩
    have hlt : h - 1 < c := by omega
    simp [Gate.Lock, hlt, Nat.sub_add_cancel hpos]

/-- Witness for C10 on a capacity-2 gate holding one unit. -/
theorem C10_lock_unlock_roundtrip_witness :
    (Gate.mk 2 1).Lock.bind Gate.Unlock = some (Gate.mk 2 1) ∧
    (Gate.mk 2 1).Unlock.bind Gate.Lock = some (Gate.mk 2 1) :=
  ⟨(C10_lock_unlock_roundtrip (Gate.mk 2 1) (by decide)).1 (by decide),
   (C10_lock_unlock_roundtrip (Gate.mk 2 1) (by decide)).2 (by decide)⟩

end GateSpec
